import Mathlib

/-!
Verification of the leptos router core (path resolution, hash-mode URL
conversion, back-navigation classification, anchor-click interception and
the navigate/complete-navigation protocol), shallowly embedded from the
Rust sources in `src/router/src`.

Strings are modelled as `List Char` (`Str`); all slash trimming in the
source is ASCII-only, so character lists are an exact model of the byte
slicing performed there.
-/

abbrev Str := List Char

namespace Router

/-- Model of `str::starts_with` for string patterns. -/
def starts_with (pat : Str) (s : Str) : Bool :=
  pat.isPrefixOf s

/-- Model of `str::find(pat)`: byte index of the first occurrence of `pat`
in `s` (`none` when absent).  Only ever compared with `some 0` in the
source, where byte and character indices agree. -/
def find_sub (s pat : Str) : Option Nat :=
  match s with
  | [] => if pat.isPrefixOf ([] : Str) then some 0 else none
  | c :: rest =>
    if pat.isPrefixOf (c :: rest) then some 0
    else (find_sub rest pat).map (· + 1)

/-- Model of `str::split_once(sep)`: split at the first occurrence of
`sep`, returning the parts before and after it. -/
def split_once (sep : Str) (s : Str) : Option (Str × Str) :=
  match s with
  | [] => if sep.isPrefixOf ([] : Str) then some ([], []) else none
  | c :: rest =>
    if sep.isPrefixOf (c :: rest) then some ([], (c :: rest).drop sep.length)
    else (split_once sep rest).map (fun p => (c :: p.1, p.2))

/-- `begins_with_query_or_hash` from `resolve_path.rs`. -/
def begins_with_query_or_hash (text : Str) : Bool :=
  match text with
  | [] => false
  | c :: _ => c = '#' || c = '?'

/-- `normalize` from `resolve_path.rs`: trim all leading `/`, trim
trailing `/` down to at most one, then prepend a single `/` unless the
remainder is empty, `omit_slash` is set, or it begins with `?`/`#`. -/
def normalize (path : Str) (omit_slash : Bool) : Str :=
  let s := path.dropWhile (· == '/')
  let trim_end := (s.reverse.takeWhile (· == '/')).length - 1
  let s := s.take (s.length - trim_end)
  if s.isEmpty || omit_slash || begins_with_query_or_hash s then s
  else '/' :: s

/-- The alphanumeric-ASCII check used on the scheme of `<alnum>://`. -/
def is_alnum_ascii (c : Char) : Bool :=
  ('a' ≤ c && c ≤ 'z') || ('A' ≤ c && c ≤ 'Z') || ('0' ≤ c && c ≤ '9')

/-- `has_scheme` from `resolve_path.rs`. -/
def has_scheme (path : Str) : Bool :=
  starts_with "//".toList path
    || starts_with "tel:".toList path
    || starts_with "mailto:".toList path
    || (match split_once "://".toList path with
        | some (pre, _) => pre.all is_alnum_ascii
        | none => false)

/-- `resolve_path` from `resolve_path.rs`. -/
def resolve_path (base path : Str) (from? : Option Str) : Str :=
  if has_scheme path then path
  else
    let base_path := normalize base false
    let from_path := from?.map (fun f => normalize f false)
    let result :=
      match from_path with
      | some fp =>
        if starts_with "/".toList path then base_path
        else if find_sub fp base_path ≠ some 0 then base_path ++ fp
        else fp
      | none => base_path
    let result_empty := result.isEmpty
    let pref := if result_empty then "/".toList else result
    pref ++ normalize path result_empty

/-- `Url` from `location/mod.rs` (the `ParamsMap` collaborator is modelled
as its ordered key-value list). -/
structure Url where
  origin : Str
  path : Str
  search : Str
  search_params : List (Str × Str)
  hash : Str
deriving DecidableEq, Repr

/-- Model of `str::strip_prefix(char)`. -/
def strip_first_char (c : Char) (s : Str) : Option Str :=
  match s with
  | [] => none
  | x :: rest => if x = c then some rest else none

/-- `HashRouter::browser_to_router_url` from `location/hash.rs`: the
logical path is unfolded from the fragment, the fragment is cleared. -/
def browser_to_router_url (url : Url) : Url :=
  { url with
    path := (strip_first_char '#' url.hash).getD "/".toList
    hash := [] }

/-- `HashRouter::router_to_browser_url` from `location/hash.rs`: the
logical path is folded into the fragment, the browser path is fixed at
`/`. -/
def router_to_browser_url (url : Url) : Url :=
  { url with
    hash := '#' :: url.path
    path := "/".toList }

/-- The back-classification computed by the `popstate` callbacks in
`location/history.rs` and `location/hash.rs`:
`stack.len() == 1 || (stack.len() >= 2 && stack.get(stack.len() - 2) == Some(&new_url))`. -/
def is_navigating_back (stack : List Url) (new_url : Url) : Bool :=
  decide (stack.length = 1)
    || (decide (2 ≤ stack.length)
        && decide (stack[stack.length - 2]? = some new_url))

/-- `LocationChange` from `location/mod.rs`; the opaque `JsValue` history
state is modelled as `Option Nat` (`none` = no state). -/
structure LocationChange where
  value : Str
  replace : Bool
  scroll : Bool
  state : Option Nat
deriving DecidableEq, Repr

/-- A navigation request handed to the provider's internal `navigate`
closure: a target URL plus the `LocationChange` intent, tagged with an
identifier so commits can be attributed. -/
structure Nav where
  id : Nat
  url : Url
  change : LocationChange
deriving DecidableEq, Repr

/-- The provider state shared by `BrowserRouter` and `HashRouter`: the
reactive URL signal, the pending-navigation slot, the path stack and the
back flag, plus the ordered list of navigation ids whose
`complete_navigation` has run (the history mutations). -/
structure RouterState where
  url : Url
  pending : Option Nav
  commits : List Nat
  path_stack : List Url
  is_back : Bool
deriving DecidableEq, Repr

/-- `complete_navigation` (`location/history.rs` / `location/hash.rs`):
mutates history (recorded in `commits`), appends the committed URL to the
path stack, and clears the back flag. -/
def complete_navigation (s : RouterState) (n : Nav) : RouterState :=
  { s with
    commits := s.commits ++ [n.id]
    path_stack := s.path_stack ++ [n.url]
    is_back := false }

/-- The `same_path` comparison inside `navigate`: untracked read of the
URL signal, comparing origin and path. -/
def same_path (curr new_url : Url) : Bool :=
  decide (curr.origin = new_url.origin) && decide (curr.path = new_url.path)

/-- The `navigate` closure built in `init`: set the URL signal; if the
origin+path did not change, commit immediately; otherwise arm a fresh
sender in the pending slot (dropping — i.e. cancelling — any previous
one) and leave the commit to the awaiting task. -/
def navigate_step (s : RouterState) (n : Nav) : RouterState :=
  let same := same_path s.url n.url
  let s' := { s with url := n.url }
  if same then complete_navigation s' n
  else { s' with pending := some n }

/-- `ready_to_complete` together with the resumption of the awaiting task
in `navigate`: fire and take the pending sender if any; the woken task
re-checks (untracked) that the URL signal still equals its proposed URL
before calling `complete_navigation`. -/
def ready_step (s : RouterState) : RouterState :=
  match s.pending with
  | none => s
  | some n =>
    let s' := { s with pending := none }
    if s'.url = n.url then complete_navigation s' n else s'

/-- The `popstate` callback registered in `init`: classify the freshly
read URL against the path stack, store the flag, and set the URL
signal. -/
def popstate_step (s : RouterState) (new_url : Url) : RouterState :=
  { s with
    is_back := is_navigating_back s.path_stack new_url
    url := new_url }

/-- The anchor element data read by `handle_anchor_click`
(`location/mod.rs`): `href`/`target` properties, the attributes it tests,
and the framework-injected `state`/`replace` JS properties (`state`
modelled as `Option Nat`, `none` for `undefined`; `replace` as the result
of `as_bool`). -/
structure Anchor where
  href : Str
  target : Str
  has_state_attr : Bool
  has_download : Bool
  rel : Option Str
  state_prop : Option Nat
  replace_prop : Option Bool
  has_noscroll : Bool
  has_data_noscroll : Bool
deriving DecidableEq, Repr

/-- The mouse-event data read by `handle_anchor_click`: prevented flag,
button, modifier keys, and the composed path (non-anchor entries are
`none`). -/
structure ClickEvent where
  default_prevented : Bool
  button : Int
  meta_key : Bool
  alt_key : Bool
  ctrl_key : Bool
  shift_key : Bool
  composed_path : List (Option Anchor)
deriving DecidableEq, Repr

/-- The loop over `composed_path` keeps overwriting its candidate, so the
anchor used is the last one in the path. -/
def last_anchor (path : List (Option Anchor)) : Option Anchor :=
  (path.filterMap id).getLast?

/-- Model of `str::split([' ', '\t'])` (used on the `rel` attribute):
substrings between separators, empty pieces included. -/
def split_ws (s : Str) : List Str :=
  match s with
  | [] => [[]]
  | c :: rest =>
    let r := split_ws rest
    if c = ' ' || c = '\t' then [] :: r
    else
      match r with
      | [] => [[c]]
      | t :: ts => (c :: t) :: ts

/-- The observable effects of one click event, in order: at most one
`prevent_default` and at most one invocation of the navigation callback. -/
inductive ClickAction where
  | prevent_default : ClickAction
  | navigate (url : Url) (change : LocationChange) : ClickAction
deriving DecidableEq, Repr

/-- `handle_anchor_click` from `location/mod.rs`, as the list of effects
performed for one event.  `parse_with_base` (the external URL parser,
applied to the anchor's href and the window origin), `unescape_minimal`
and `unescape` (the platform URI decoders) and the window origin are
explicit parameters. -/
def handle_anchor_click
    (router_base : Option Str)
    (parse_with_base : Str → Str → Url)
    (unescape_minimal unescape : Str → Str)
    (origin : Str)
    (ev : ClickEvent) : List ClickAction :=
  let router_base := router_base.getD []
  if ev.default_prevented || decide (ev.button ≠ 0) || ev.meta_key
      || ev.alt_key || ev.ctrl_key || ev.shift_key then []
  else
    match last_anchor ev.composed_path with
    | none => []
    | some a =>
      if !a.target.isEmpty || (a.href.isEmpty && !a.has_state_attr) then []
      else if a.has_download
          || (split_ws (a.rel.getD [])).any (fun p => p = "external".toList)
        then []
      else
        let url := parse_with_base a.href origin
        let path_name := unescape_minimal url.path
        if decide (url.origin ≠ origin)
            || (!router_base.isEmpty && !path_name.isEmpty
                && !(starts_with router_base path_name)) then []
        else
          let target_value :=
            path_name
              ++ (if url.search.isEmpty then [] else "?".toList)
              ++ unescape url.search ++ unescape url.hash
          let change : LocationChange :=
            { value := target_value
              replace := a.replace_prop.getD false
              scroll := !a.has_noscroll && !a.has_data_noscroll
              state := a.state_prop }
          [ClickAction.prevent_default, ClickAction.navigate url change]

/-! ### Structural characterization of `normalize` -/

/-- Length of the run of trailing slashes. -/
def trail_count (s : Str) : Nat :=
  (s.reverse.takeWhile (· == '/')).length

/-- The string with all trailing slashes removed. -/
def strip_trail (s : Str) : Str :=
  (s.reverse.dropWhile (· == '/')).reverse

/-- The edge-only core of `normalize`: the input minus its leading
slashes, with the trailing-slash run collapsed to at most one. -/
def core_of (s : Str) : Str :=
  if trail_count s = 0 then s else strip_trail s ++ ['/']

/-- Concrete URLs (same origin, distinct paths) used to instantiate the
theorems below. -/
def url_p : Url := ⟨"https://x.dev".toList, "/p".toList, [], [], []⟩

def url_q : Url := ⟨"https://x.dev".toList, "/q".toList, [], [], []⟩

def url_r : Url := ⟨"https://x.dev".toList, "/r".toList, [], [], []⟩

/-- A concrete `LocationChange` intent. -/
def change0 : LocationChange := ⟨"/p".toList, true, true, none⟩

/-- Concrete navigations: `nav_A` targets `url_p`, `nav_B` targets
`url_q`. -/
def nav_A : Nav := ⟨0, url_p, ⟨"/p".toList, true, true, none⟩⟩

def nav_B : Nav := ⟨1, url_q, ⟨"/q".toList, true, true, none⟩⟩

/-- A provider state whose URL signal already reads `url_p` (as after
`new()`), with no pending navigation. -/
def state_p : RouterState := ⟨url_p, none, [], [url_p], false⟩

/-- A provider state whose URL signal reads `url_r`. -/
def state_r : RouterState := ⟨url_r, none, [], [url_r], false⟩

theorem takeWhile_dropWhile_eq_nil {α : Type} (p : α → Bool) (l : List α) :
    (l.dropWhile p).takeWhile p = [] := by
  induction l with
  | nil => simp
  | cons a t ih =>
    by_cases h : p a
    · simpa [List.dropWhile_cons, h] using ih
    · simp [List.dropWhile_cons, h, List.takeWhile_cons, h]

theorem takeWhile_slash_eq_replicate (l : Str) :
    l.takeWhile (· == '/')
      = List.replicate (l.takeWhile (· == '/')).length '/' := by
  induction l with
  | nil => simp
  | cons c t ih =>
    by_cases h : (c == '/') = true
    · have hc : c = '/' := by simpa using h
      subst hc
      rw [List.takeWhile_cons_of_pos (p := fun x => x == '/') (by simp),
        List.length_cons, List.replicate_succ]
      exact congrArg ('/' :: ·) ih
    · rw [List.takeWhile_cons_of_neg (p := fun x => x == '/')
        (by simpa using h)]
      simp

/-- Decomposition: every string is its trailing-slash-free part followed
by `trail_count` slashes. -/
theorem strip_trail_append (s : Str) :
    s = strip_trail s ++ List.replicate (trail_count s) '/' := by
  have hsplit := List.takeWhile_append_dropWhile (fun c => c == '/')
    s.reverse
  have hrep := takeWhile_slash_eq_replicate s.reverse
  have hrev : s = (s.reverse.dropWhile (fun c => c == '/')).reverse
      ++ (s.reverse.takeWhile (fun c => c == '/')).reverse := by
    conv_lhs => rw [← List.reverse_reverse s, ← hsplit]
    rw [List.reverse_append]
  have h1 : (s.reverse.dropWhile (fun c => c == '/')).reverse
      = strip_trail s := rfl
  have h2 : (s.reverse.takeWhile (fun c => c == '/')).reverse
      = List.replicate (trail_count s) '/' := by
    rw [hrep]
    simp [trail_count]
  conv_lhs => rw [hrev, h1, h2]

/-- The trim-end step of `normalize` keeps the trailing-slash-free part
plus exactly one slash (when there was at least one).  The left-hand side
is written exactly as computed inside `normalize`. -/
theorem trim_end_eq (s : Str) :
    s.take (s.length - ((s.reverse.takeWhile (· == '/')).length - 1))
      = if trail_count s = 0 then s else strip_trail s ++ ['/'] := by
  show s.take (s.length - (trail_count s - 1)) = _
  rcases hn : trail_count s with _ | k
  · simp [hn]
  · rw [if_neg (Nat.succ_ne_zero k)]
    have hdec := strip_trail_append s
    rw [hn] at hdec
    calc
      s.take (s.length - (k + 1 - 1))
          = (strip_trail s ++ List.replicate (k + 1) '/').take
              ((strip_trail s ++ List.replicate (k + 1) '/').length
                - (k + 1 - 1)) := by rw [← hdec]
      _ = strip_trail s ++ ['/'] := by
          rw [List.length_append, List.length_replicate]
          have ha : (strip_trail s).length + (k + 1) - (k + 1 - 1)
              = (strip_trail s).length + 1 := by omega
          rw [ha, List.take_append_eq_append_take,
            List.take_of_length_le (Nat.le_succ _)]
          congr 1
          have hb : (strip_trail s).length + 1 - (strip_trail s).length
              = 1 := by omega
          rw [hb, List.replicate_succ]
          simp

/-- `normalize`, re-expressed through the edge decomposition: drop the
leading slashes, keep the interior verbatim, keep one trailing slash when
any was present, and prepend one slash in the non-omitted branch. -/
theorem normalize_eq_core (p : Str) (b : Bool) :
    normalize p b =
      (if (core_of (p.dropWhile (· == '/'))).isEmpty || b
          || begins_with_query_or_hash (core_of (p.dropWhile (· == '/')))
        then core_of (p.dropWhile (· == '/'))
        else '/' :: core_of (p.dropWhile (· == '/'))) := by
  unfold normalize
  simp only []
  rw [trim_end_eq]
  rfl

theorem dropWhile_head_not_slash (p : Str) :
    p.dropWhile (· == '/') = []
      ∨ ∃ x xs, p.dropWhile (· == '/') = x :: xs ∧ (x == '/') = false := by
  cases h : p.dropWhile (· == '/') with
  | nil => exact Or.inl rfl
  | cons x xs =>
    refine Or.inr ⟨x, xs, rfl, ?_⟩
    have hw : p.dropWhile (fun c => c == '/') ≠ [] := by simp [h]
    have := List.head_dropWhile_not (fun c => c == '/') p hw
    simpa [h] using this

theorem trail_count_core_le_one (s : Str) : trail_count (core_of s) ≤ 1 := by
  unfold core_of
  by_cases h : trail_count s = 0
  · rw [if_pos h, h]
    omega
  · rw [if_neg h]
    have h1 : trail_count (strip_trail s ++ ['/']) = 1 := by
      unfold trail_count
      rw [List.reverse_append]
      simp only [List.reverse_cons, List.reverse_nil, List.nil_append,
        List.singleton_append]
      rw [List.takeWhile_cons_of_pos (p := fun x => x == '/') (by simp)]
      have : (strip_trail s).reverse.takeWhile (fun x => x == '/') = [] := by
        unfold strip_trail
        rw [List.reverse_reverse]
        exact takeWhile_dropWhile_eq_nil _ _
      rw [this]
      rfl
    omega

theorem core_of_eq_self (s : Str) (h : trail_count s ≤ 1) :
    core_of s = s := by
  unfold core_of
  by_cases h0 : trail_count s = 0
  · rw [if_pos h0]
  · rw [if_neg h0]
    have h1 : trail_count s = 1 := by omega
    conv_rhs => rw [strip_trail_append s]
    rw [h1, List.replicate_succ]
    simp

theorem core_of_cons (s : Str) (x : Char) (xs : Str) (hs : s = x :: xs)
    (hx : (x == '/') = false) : ∃ ys, core_of s = x :: ys := by
  unfold core_of
  by_cases h0 : trail_count s = 0
  · exact ⟨xs, by rw [if_pos h0, hs]⟩
  · rw [if_neg h0]
    rcases hstrip : strip_trail s with _ | ⟨y, ys⟩
    · exfalso
      have hdec := strip_trail_append s
      rw [hstrip, List.nil_append, hs] at hdec
      rcases hn : trail_count s with _ | k
      · exact h0 hn
      · rw [hs] at hn
        rw [hn, List.replicate_succ] at hdec
        have hxh : x = '/' := by injection hdec
        rw [hxh] at hx
        simp at hx
    · have hdec := strip_trail_append s
      rw [hstrip, hs] at hdec
      have hxy : x = y := by
        have := congrArg List.head? hdec
        simpa using this
      exact ⟨ys ++ ['/'], by rw [hxy]; rfl⟩

/-! ### Claim theorems -/

/-- C6: path normalization is idempotent: for every path string `p`,
`normalize (normalize p false) false = normalize p false`. -/
theorem c6_normalize_idempotent (p : Str) :
    normalize (normalize p false) false = normalize p false := by
  rw [normalize_eq_core p false]
  rcases dropWhile_head_not_slash p with h | ⟨x, xs, hs, hx⟩
  · rw [h]
    decide
  · rw [hs]
    obtain ⟨ys, hcore⟩ := core_of_cons (x :: xs) x xs rfl hx
    rw [hcore]
    have hle : trail_count (x :: ys) ≤ 1 := by
      rw [← hcore]
      exact trail_count_core_le_one (x :: xs)
    have hcc : core_of (x :: ys) = x :: ys := core_of_eq_self _ hle
    have hd : (x :: ys).dropWhile (· == '/') = x :: ys :=
      List.dropWhile_cons_of_neg (by simp [hx])
    simp only [List.isEmpty_cons, Bool.false_or, Bool.or_false]
    by_cases hb : begins_with_query_or_hash (x :: ys) = true
    · rw [if_pos hb, normalize_eq_core, hd, hcc]
      simp only [List.isEmpty_cons, Bool.false_or, Bool.or_false]
      rw [if_pos hb]
    · rw [if_neg hb, normalize_eq_core]
      have hd2 : ('/' :: x :: ys).dropWhile (· == '/') = x :: ys := by
        rw [List.dropWhile_cons_of_pos (by simp), hd]
      rw [hd2, hcc]
      simp only [List.isEmpty_cons, Bool.false_or, Bool.or_false]
      rw [if_neg hb]

/-- C7: `normalize` preserves a trailing slash exactly once regardless of
run length (`foo/bar/` and `foo/bar/////` both normalize to `/foo/bar/`),
and only edge slashes are normalized: the output is always the input
minus its leading-slash run and trailing-slash run — the interior, double
slashes included, verbatim — with at most one slash re-attached at either
edge. -/
theorem c7_normalize_trailing_slash :
    normalize "foo/bar/".toList false = "/foo/bar/".toList
      ∧ normalize "foo/bar/////".toList false = "/foo/bar/".toList
      ∧ normalize "foo//bar".toList false = "/foo//bar".toList
      ∧ ∀ p : Str, ∃ pre suf : Str,
          (pre = [] ∨ pre = ['/']) ∧ (suf = [] ∨ suf = ['/'])
            ∧ normalize p false
              = pre ++ strip_trail (p.dropWhile (· == '/')) ++ suf := by
  refine ⟨by decide, by decide, by decide, ?_⟩
  intro p
  rw [normalize_eq_core p false]
  unfold core_of
  by_cases h0 : trail_count (p.dropWhile (· == '/')) = 0
  · have hstrip : strip_trail (p.dropWhile (· == '/'))
        = p.dropWhile (· == '/') := by
      have hd := strip_trail_append (p.dropWhile (· == '/'))
      rw [h0] at hd
      simpa using hd.symm
    rw [if_pos h0]
    by_cases hb : ((p.dropWhile (· == '/')).isEmpty || false
        || begins_with_query_or_hash (p.dropWhile (· == '/'))) = true
    · exact ⟨[], [], Or.inl rfl, Or.inl rfl, by rw [if_pos hb, hstrip]; simp⟩
    · exact ⟨['/'], [], Or.inr rfl, Or.inl rfl, by
        rw [if_neg hb, hstrip]; simp⟩
  · rw [if_neg h0]
    by_cases hb : ((strip_trail (p.dropWhile (· == '/')) ++ ['/']).isEmpty
        || false
        || begins_with_query_or_hash
            (strip_trail (p.dropWhile (· == '/')) ++ ['/'])) = true
    · exact ⟨[], ['/'], Or.inl rfl, Or.inr rfl, by rw [if_pos hb]; simp⟩
    · exact ⟨['/'], ['/'], Or.inr rfl, Or.inr rfl, by rw [if_neg hb]; simp⟩

/-- C2 refuted: on the spec's own example the relative path is joined
under `from`, not under `base`: the result is `/app/y/x`, not the claimed
`/app/x`. -/
theorem c2_counterexample :
    resolve_path "/app".toList "x".toList (some "/app/y".toList)
        = "/app/y/x".toList
      ∧ resolve_path "/app".toList "x".toList (some "/app/y".toList)
        ≠ "/app/x".toList := by
  exact ⟨by decide, by decide⟩

/-- C2 (amended): when `path` is scheme-free and relative and the
normalized `from` starts with the normalized `base` and is non-empty,
`resolve_path` returns the normalized `from` joined with the normalized
`path` (so the example resolves to `/app/y/x`). -/
theorem c2_relative_resolution (base p f : Str)
    (hscheme : has_scheme p = false)
    (habs : starts_with "/".toList p = false)
    (hpre : find_sub (normalize f false) (normalize base false) = some 0)
    (hne : (normalize f false).isEmpty = false) :
    resolve_path base p (some f) = normalize f false ++ normalize p false := by
  unfold resolve_path
  have habs' : starts_with ['/'] p = false := habs
  have hne' : normalize f false ≠ [] := by
    cases h : normalize f false with
    | nil => rw [h] at hne; simp at hne
    | cons c t => simp
  simp [hscheme, habs', hpre, hne, hne']

/-- C2 witness: the amended statement applied at the spec's example. -/
theorem c2_relative_resolution_witness :
    resolve_path "/app".toList "x".toList (some "/app/y".toList)
      = normalize "/app/y".toList false ++ normalize "x".toList false :=
  c2_relative_resolution "/app".toList "x".toList "/app/y".toList
    (by decide) (by decide) (by decide) (by decide)

/-- C8: a scheme-qualified path (per `has_scheme`: starting with `//`,
`tel:`, `mailto:`, or `<alnum>://`) is returned by `resolve_path`
unchanged for every base and from; in particular `mailto:a@b.com`. -/
theorem c8_scheme_passthrough :
    (∀ (base p : Str) (f : Option Str), has_scheme p = true →
        resolve_path base p f = p)
      ∧ ∀ (b : Str) (f : Option Str),
          resolve_path b "mailto:a@b.com".toList f
            = "mailto:a@b.com".toList := by
  constructor
  · intro base p f h
    unfold resolve_path
    rw [if_pos h]
  · intro b f
    unfold resolve_path
    rw [if_pos (by decide)]

/-- C8 witness: the passthrough applied at `tel:123`. -/
theorem c8_scheme_passthrough_witness :
    resolve_path "/b".toList "tel:123".toList none = "tel:123".toList :=
  c8_scheme_passthrough.1 "/b".toList "tel:123".toList none (by decide)

/-- C9: a path beginning with `://` is accepted by the vacuous
alphanumeric check on the empty scheme and returned unchanged by
`resolve_path` for every base and from. -/
theorem c9_empty_scheme_passthrough (base : Str) (f : Option Str)
    (rest : Str) :
    resolve_path base (':' :: '/' :: '/' :: rest) f
      = ':' :: '/' :: '/' :: rest := by
  unfold resolve_path
  rw [if_pos ?_]
  unfold has_scheme
  simp [starts_with, split_once, List.isPrefixOf]

/-- C10: when the browser URL's hash is empty or does not begin with `#`,
`browser_to_router_url` discards the hash content entirely: the result
has path `/` and empty hash, with origin, search and search_params
unchanged. -/
theorem c10_browser_to_router_url_no_hash (u : Url)
    (h : u.hash.head? ≠ some '#') :
    browser_to_router_url u = { u with path := "/".toList, hash := [] } := by
  have hstrip : strip_first_char '#' u.hash = none := by
    cases hh : u.hash with
    | nil => rfl
    | cons c rest =>
      have hc : c ≠ '#' := by
        rw [hh] at h
        simpa using h
      simp [strip_first_char, hc]
  unfold browser_to_router_url
  rw [hstrip]
  rfl

/-- C10 witness: a browser URL whose hash is `x` (no leading `#`). -/
theorem c10_witness :
    browser_to_router_url
        ⟨"https://x.dev".toList, "/ignored".toList, "q=1".toList, [],
          "x".toList⟩
      = { origin := "https://x.dev".toList, path := "/".toList,
          search := "q=1".toList, search_params := [], hash := [] } :=
  c10_browser_to_router_url_no_hash
    ⟨"https://x.dev".toList, "/ignored".toList, "q=1".toList, [], "x".toList⟩
    (by decide)

/-- C3 refuted: the round trip is not loss-less for every router URL — a
non-empty fragment is overwritten by the folded path and comes back
empty. -/
theorem c3_counterexample :
    browser_to_router_url (router_to_browser_url
        ⟨"https://x.dev".toList, "/foo".toList, [], [], "#bar".toList⟩)
      ≠ ⟨"https://x.dev".toList, "/foo".toList, [], [], "#bar".toList⟩ := by
  decide

/-- C3 (amended): the conversions are pure and loss-less for every router
URL whose hash is empty: the round trip is the identity, and
`router_to_browser_url` folds the path into the fragment (`path=/foo`
becomes `hash=#/foo`) with the browser path fixed at `/`. -/
theorem c3_hash_roundtrip (u : Url) (h : u.hash = []) :
    browser_to_router_url (router_to_browser_url u) = u
      ∧ (router_to_browser_url u).hash = '#' :: u.path
      ∧ (router_to_browser_url u).path = "/".toList := by
  refine ⟨?_, rfl, rfl⟩
  cases u with
  | mk o p s sp hh =>
    subst h
    unfold browser_to_router_url router_to_browser_url
    simp [strip_first_char]

/-- C3 witness: the round trip at a concrete hash-free router URL. -/
theorem c3_witness :
    browser_to_router_url (router_to_browser_url url_p) = url_p :=
  (c3_hash_roundtrip url_p rfl).1

/-- C4: the popstate back-classification is true exactly when the stack
holds one entry or the delivered URL equals the second-to-last entry; for
stack `[/a, /b, /c]` delivering `/b` sets the flag, and delivering a URL
equal to neither of the last two entries clears it. -/
theorem c4_is_back_classification :
    (∀ (s : RouterState) (u : Url),
        (popstate_step s u).is_back = true
          ↔ s.path_stack.length = 1
            ∨ (2 ≤ s.path_stack.length
                ∧ s.path_stack[s.path_stack.length - 2]? = some u))
      ∧ (∀ (s : RouterState) (a b c u : Url), s.path_stack = [a, b, c] →
          (popstate_step s b).is_back = true
            ∧ (u ≠ b → u ≠ c → (popstate_step s u).is_back = false)) := by
  constructor
  · intro s u
    simp [popstate_step, is_navigating_back]
  · intro s a b c u hstack
    constructor
    · simp [popstate_step, is_navigating_back, hstack]
    · intro hub huc
      simp [popstate_step, is_navigating_back, hstack, Ne.symm hub]

/-- C4 witness: stack `[/p, /q, /r]`; delivering `/q` classifies as back,
delivering `/p` (neither of the last two entries) does not. -/
theorem c4_witness :
    (popstate_step ⟨url_r, none, [], [url_p, url_q, url_r], false⟩
        url_q).is_back = true
      ∧ (popstate_step ⟨url_r, none, [], [url_p, url_q, url_r], false⟩
          url_p).is_back = false :=
  ⟨(c4_is_back_classification.2 ⟨url_r, none, [], [url_p, url_q, url_r],
      false⟩ url_p url_q url_r url_q rfl).1,
   (c4_is_back_classification.2 ⟨url_r, none, [], [url_p, url_q, url_r],
      false⟩ url_p url_q url_r url_p rfl).2 (by decide) (by decide)⟩

/-- C1 refuted: the claim quantifies over all navigations to distinct
paths, but when A's target origin+path coincides with the URL signal at
A's issuance, `navigate` invokes `complete_navigation` for A
synchronously — before B is even issued — so A's commit (id 0) lands in
history alongside B's. -/
theorem c1_counterexample :
    (ready_step (navigate_step (navigate_step state_p nav_A) nav_B)).commits
        = [0, 1]
      ∧ nav_A.id ∈ (ready_step (navigate_step (navigate_step state_p nav_A)
          nav_B)).commits := by
  decide

/-- Firing `ready_to_complete` with no pending navigation is a no-op. -/
theorem ready_step_of_none (s : RouterState) (h : s.pending = none) :
    ready_step s = s := by
  unfold ready_step
  rw [h]

/-- C1 (amended): provided A's target differs in origin or path from the
URL signal at A's issuance, issuing B (origin+path distinct from A's)
before A's `ready_to_complete` fires means A's `complete_navigation`
never runs: after any number of ready firings the history mutations are
exactly B's single commit — and that only once at least one ready has
fired, with the URL signal still equal to B's proposal. -/
theorem c1_cancellation (s0 : RouterState) (A B : Nav) (k : Nat)
    (hA : same_path s0.url A.url = false)
    (hAB : same_path A.url B.url = false) :
    (ready_step^[k] (navigate_step (navigate_step s0 A) B)).commits
      = s0.commits ++ (if k = 0 then [] else [B.id]) := by
  have h1 : navigate_step s0 A = { s0 with url := A.url, pending := some A } := by
    unfold navigate_step
    simp [hA]
  have h2 : navigate_step { s0 with url := A.url, pending := some A } B
      = { s0 with url := B.url, pending := some B } := by
    unfold navigate_step
    simp [hAB]
  rw [h1, h2]
  cases k with
  | zero => simp
  | succ j =>
    rw [Function.iterate_succ_apply]
    have h3 : ready_step { s0 with url := B.url, pending := some B }
        = { s0 with
            url := B.url
            pending := none
            commits := s0.commits ++ [B.id]
            path_stack := s0.path_stack ++ [B.url]
            is_back := false } := by
      unfold ready_step
      simp [complete_navigation]
    rw [h3, Function.iterate_fixed (ready_step_of_none _ rfl) j]
    simp

/-- C1 witness: from `state_r` (URL `/r`), navigating to `/p` then `/q`
and firing ready once commits exactly `/q`'s navigation. -/
theorem c1_cancellation_witness :
    (ready_step^[1] (navigate_step (navigate_step state_r nav_A) nav_B)).commits
      = state_r.commits ++ (if (1 : Nat) = 0 then [] else [nav_B.id]) :=
  c1_cancellation state_r nav_A nav_B 1 (by decide) (by decide)

/-- C5: the click-interception decision never invokes the navigation
callback for an anchor with a non-empty `target` or for a click with any
meta/ctrl/shift/alt modifier; and for a plain primary-button click on a
same-origin anchor whose resolved path starts with the router base (and
that passes the remaining anchor checks: has an href, no `download`, no
`rel=external`), it produces exactly one navigation, preceded by
`prevent_default`. -/
theorem c5_click_interception
    (rb : Option Str) (parse um ue) (origin : Str) (ev : ClickEvent) :
    (∀ a, last_anchor ev.composed_path = some a → a.target ≠ [] →
        ∀ u ch, ClickAction.navigate u ch
          ∉ handle_anchor_click rb parse um ue origin ev)
      ∧ ((ev.meta_key || ev.ctrl_key || ev.shift_key || ev.alt_key) = true →
          handle_anchor_click rb parse um ue origin ev = [])
      ∧ (∀ a, ev.default_prevented = false → ev.button = 0 →
          ev.meta_key = false → ev.alt_key = false → ev.ctrl_key = false →
          ev.shift_key = false →
          last_anchor ev.composed_path = some a →
          a.target = [] → a.href ≠ [] →
          a.has_download = false →
          "external".toList ∉ split_ws (a.rel.getD []) →
          (parse a.href origin).origin = origin →
          starts_with (rb.getD []) (um (parse a.href origin).path) = true →
          ∃ u ch, handle_anchor_click rb parse um ue origin ev
            = [ClickAction.prevent_default, ClickAction.navigate u ch]) := by
  refine ⟨?_, ?_, ?_⟩
  · intro a hla htarget u ch
    have hres : handle_anchor_click rb parse um ue origin ev = [] := by
      unfold handle_anchor_click
      by_cases hg : (ev.default_prevented || decide (ev.button ≠ 0)
          || ev.meta_key || ev.alt_key || ev.ctrl_key || ev.shift_key)
          = true
      · rw [if_pos hg]
      · rw [if_neg hg, hla]
        have hte : a.target.isEmpty = false := by
          cases ht : a.target with
          | nil => exact absurd ht htarget
          | cons c t => rfl
        simp [hte]
    rw [hres]
    simp
  · intro hmod
    have hcases : ev.meta_key = true ∨ ev.ctrl_key = true
        ∨ ev.shift_key = true ∨ ev.alt_key = true := by
      have := hmod
      simp only [Bool.or_eq_true] at this
      tauto
    unfold handle_anchor_click
    rcases hcases with h | h | h | h <;> simp [h]
  · intro a hdp hbtn hmk hak hck hsk hla htgt hhref hdl hrel horig hbase
    have hg : (ev.default_prevented || decide (ev.button ≠ 0)
        || ev.meta_key || ev.alt_key || ev.ctrl_key || ev.shift_key)
        = false := by
      simp [hdp, hbtn, hmk, hak, hck, hsk]
    have hte : a.target.isEmpty = true := by rw [htgt]; rfl
    have hhe : a.href.isEmpty = false := by
      cases hh : a.href with
      | nil => exact absurd hh hhref
      | cons c t => rfl
    have hany : (split_ws (a.rel.getD [])).any
        (fun p => p = "external".toList) = false := by
      rw [List.any_eq_false]
      intro x hx
      simp only [decide_eq_true_eq]
      intro hxe
      exact hrel (hxe ▸ hx)
    have hor : decide ((parse a.href origin).origin ≠ origin) = false := by
      simp [horig]
    unfold handle_anchor_click
    rw [hg]
    simp only [Bool.false_eq_true, if_false, hla]
    simp only [hte, hhe, hdl, hany, hor, hbase, Bool.not_true,
      Bool.not_false, Bool.false_or, Bool.or_false, Bool.false_and,
      Bool.and_false, Bool.true_and, Bool.and_true, if_false]
    exact ⟨_, _, rfl⟩

/-- C5 witness: a concrete plain click on a concrete same-origin,
in-base anchor navigates exactly once with `prevent_default` first. -/
theorem c5_witness :
    ∃ u ch,
      handle_anchor_click (some "/".toList)
          (fun _ _ => url_p) (fun s => s) (fun s => s)
          "https://x.dev".toList
          ⟨false, 0, false, false, false, false,
            [some ⟨"/p".toList, [], false, false, none, none, none, false,
              false⟩]⟩
        = [ClickAction.prevent_default, ClickAction.navigate u ch] :=
  (c5_click_interception (some "/".toList) (fun _ _ => url_p)
      (fun s => s) (fun s => s) "https://x.dev".toList
      ⟨false, 0, false, false, false, false,
        [some ⟨"/p".toList, [], false, false, none, none, none, false,
          false⟩]⟩).2.2
    ⟨"/p".toList, [], false, false, none, none, none, false, false⟩
    rfl rfl rfl rfl rfl rfl rfl rfl (by decide) rfl (by decide) rfl
    (by decide)

end Router

